import Mathlib

/-!
Verification of the load-balancer core (submission 504): a shallow embedding
of the request-routing, target-selection, health-check and forwarding logic,
with theorems settling the specification's claims about it.

Python strings are modelled as lists of characters (`PyStr`), Python floats
as rationals, Python dicts keyed by strings as association lists, and the
per-request / per-probe control flow as pure functions over explicit state.
-/

namespace LB

/-- A Python string, modelled as its list of characters. -/
abbrev PyStr := List Char

/-- Convenience: the character list of a Lean string literal. -/
def pstr (s : String) : PyStr := s.data

/-- Python `s.lower()`. -/
def lower (s : PyStr) : PyStr := s.map Char.toLower

/-- Python `u.startswith(p)`. -/
def startswith (s p : PyStr) : Bool := p.isPrefixOf s

/-- Python `s.strip()`: drop leading and trailing whitespace. -/
def strip (s : PyStr) : PyStr :=
  (((s.dropWhile Char.isWhitespace).reverse).dropWhile Char.isWhitespace).reverse

/-- Python `s.split(',')`: split on every comma; always at least one piece. -/
def split_commas : PyStr → List PyStr
  | [] => [[]]
  | c :: cs =>
    match split_commas cs with
    | h :: t => if c = ',' then [] :: h :: t else (c :: h) :: t
    | [] => if c = ',' then [[], []] else [[c]]

/-! ## error_handler.py -/

/-- A Flask response: status code, headers and body. -/
structure Resp where
  status : Nat
  headers : List (PyStr × PyStr)
  body : PyStr
deriving DecidableEq

/-- `handle_error` (error_handler.py lines 8-19): `Response('', status)` —
the status code with an empty payload; the message argument is not used. -/
def handle_error (status_code : Nat) (_message : PyStr) : Resp :=
  { status := status_code, headers := [], body := [] }

/-! ## load_balancer.py: hop-by-hop header filtering (lines 17-18, 301-306) -/

/-- `HOP_BY_HOP_HEADERS` (load_balancer.py line 18):
`{'connection', 'keep-alive', 'transfer-encoding'}`. -/
def HOP_BY_HOP_HEADERS : List PyStr :=
  [pstr "connection", pstr "keep-alive", pstr "transfer-encoding"]

/-- The header dictionary built by `forward_request` (load_balancer.py lines
303-306): every incoming header whose lowercased key is not in
`HOP_BY_HOP_HEADERS` is copied through. -/
def forward_headers (hs : List (PyStr × PyStr)) : List (PyStr × PyStr) :=
  hs.filter (fun kv => decide (lower kv.1 ∉ HOP_BY_HOP_HEADERS))

/-! ## listener_rule.py and config.py -/

/-- A listener rule (listener_rule.py lines 8-22).  The source attribute
`path_prefix` is called `path_pref` here. -/
structure ListenerRule where
  path_pref : PyStr
  path_rewrite : PyStr
  group_name : PyStr
deriving DecidableEq

/-- The guard of `rewrite_uri` (listener_rule.py line 34):
`if self.path_rewrite and uri.startswith(self.path_rewrite)`. -/
def rewrite_applies (rule : ListenerRule) (uri : PyStr) : Bool :=
  !rule.path_rewrite.isEmpty && startswith uri rule.path_rewrite

/-- `rewrite_uri` (listener_rule.py lines 24-41): strip the configured
`path_rewrite` from the front of the URI and re-insert a leading slash
when the remainder lacks one; otherwise return the URI unchanged. -/
def rewrite_uri (rule : ListenerRule) (uri : PyStr) : PyStr :=
  if rewrite_applies rule uri then
    let rewritten := uri.drop rule.path_rewrite.length
    if startswith rewritten (pstr "/") then rewritten else '/' :: rewritten
  else uri

/-- One step of the stable insertion underlying Python's
`rules.sort(key=lambda r: len(r.path_prefix), reverse=True)`
(config.py line 81): a rule goes in front of the first already-placed rule
whose prefix is not longer (Python's sort is stable, so an earlier rule
stays in front of later rules of equal prefix length). -/
def insertRuleSorted (r : ListenerRule) : List ListenerRule → List ListenerRule
  | [] => [r]
  | x :: xs =>
    if x.path_pref.length ≤ r.path_pref.length then r :: x :: xs
    else x :: insertRuleSorted r xs

/-- The stable descending-prefix-length sort applied by
`_parse_listener_rules` (config.py line 81). -/
def sortRulesByLen : List ListenerRule → List ListenerRule
  | [] => []
  | x :: xs => insertRuleSorted x (sortRulesByLen xs)

/-- `find_listener_rule` (config.py lines 244-252): the first rule of the
sorted rule list whose prefix the path starts with, or none. -/
def find_listener_rule (rules : List ListenerRule) (path : PyStr) : Option ListenerRule :=
  (sortRulesByLen rules).find? (fun r => startswith path r.path_pref)

/-- Spec-side definition (spec §4.1 and §8): among the rules whose prefix
matches the path, the one of maximal prefix length, the earliest in original
configuration order on ties; none when no rule matches. -/
def bestMatchSpec (path : PyStr) : List ListenerRule → Option ListenerRule
  | [] => none
  | r :: rs =>
    if startswith path r.path_pref then
      match bestMatchSpec path rs with
      | some b => if r.path_pref.length < b.path_pref.length then some b else some r
      | none => some r
    else bestMatchSpec path rs

/-- The first step of `proxy` (app.py lines 29-32): a request whose path no
rule matches is answered by `handle_error(404, ...)`; otherwise the matched
rule is handed to the rest of the pipeline, abstracted here as `forward`. -/
def proxy_route (rules : List ListenerRule) (path : PyStr)
    (forward : ListenerRule → Resp) : Resp :=
  match find_listener_rule rules path with
  | none => handle_error 404 (pstr "No listener rule matched")
  | some r => forward r

/-! ## target.py -/

/-- A target (target.py lines 11-37): address, weight and runtime metrics.
TTFB samples are modelled as rationals. -/
structure Target where
  ip : PyStr
  port : Nat
  base_uri : PyStr
  weight : Nat
  active_connections : Nat
  ttfb_samples : List ℚ
deriving DecidableEq

/-- `avg_ttfb` (target.py lines 84-90): the arithmetic mean of the recorded
samples, `0.0` when there are none. -/
def avg_ttfb (t : Target) : ℚ :=
  if t.ttfb_samples = [] then 0 else t.ttfb_samples.sum / (t.ttfb_samples.length : ℚ)

/-! ## load_balancer.py: forwarding outcome translation (lines 353-390) -/

/-- The possible outcomes of the upstream call in `forward_request`:
a reply from the upstream (any status), `requests.exceptions.Timeout`,
`requests.exceptions.ConnectionError`, or any other exception. -/
inductive ForwardOutcome where
  | reply (status : Nat) (headers : List (PyStr × PyStr)) (body : PyStr)
  | timeout
  | connectionError
  | otherError (msg : PyStr)

/-- The response `forward_request` returns for each outcome (load_balancer.py
lines 372-385): a reply's status, headers and body are carried through; a
timeout becomes `handle_error(504, ...)`; a connection error becomes
`handle_error(502, ...)`; any other exception becomes `handle_error(502, ...)`. -/
def forward_result : ForwardOutcome → Resp
  | .reply s h b => { status := s, headers := h, body := b }
  | .timeout => handle_error 504 (pstr "Request timeout")
  | .connectionError => handle_error 502 (pstr "Connection error")
  | .otherError msg => handle_error 502 (pstr "Error forwarding request: " ++ msg)

/-! ## health_check.py -/

/-- The per-target health record (health_check.py lines 97-102). -/
structure HealthInfo where
  consecutive_failures : Nat
  consecutive_successes : Nat
  healthy : Bool
deriving DecidableEq

/-- The initial health record (health_check.py lines 98-102):
healthy, both counters zero. -/
def initialHealth : HealthInfo :=
  { consecutive_failures := 0, consecutive_successes := 0, healthy := true }

/-- What one health probe can observe (health_check.py lines 136-148):
a response with some status, a timeout, or a connection error. -/
inductive Probe where
  | response (status : Nat)
  | timeout
  | connError
deriving DecidableEq

/-- `_perform_health_check` (health_check.py lines 126-148): only a 200
response counts as success; any non-200 status, timeout or error is failure. -/
def probe_success : Probe → Bool
  | .response code => code == 200
  | .timeout => false
  | .connError => false

/-- `_check_target_health` (health_check.py lines 89-124): on success reset
`consecutive_failures`, increment `consecutive_successes` and latch healthy
at the succeed threshold; on failure symmetrically latch unhealthy at the
failure threshold. -/
def check_target_health (succeed_threshold failure_threshold : Nat)
    (h : HealthInfo) (p : Probe) : HealthInfo :=
  if probe_success p then
    let cs := h.consecutive_successes + 1
    { consecutive_failures := 0, consecutive_successes := cs,
      healthy := if succeed_threshold ≤ cs then true else h.healthy }
  else
    let cf := h.consecutive_failures + 1
    { consecutive_failures := cf, consecutive_successes := 0,
      healthy := if failure_threshold ≤ cf then false else h.healthy }

/-- A sequence of probe observations applied in order to one target's
health record. -/
def run_health_checks (st ft : Nat) (h : HealthInfo) (ps : List Probe) : HealthInfo :=
  ps.foldl (check_target_health st ft) h

/-! ## target_group.py and load_balancer.py: weighted round-robin -/

/-- `get_weighted_target_list` (target_group.py lines 156-176): each target,
in original order, repeated `weight` times. -/
def get_weighted_target_list (targets : List Target) : List Target :=
  (targets.map (fun t => List.replicate t.weight t)).flatten

/-- The target `_weighted` (load_balancer.py lines 101-142) returns when the
counter holds `counter`: `weighted_list[index % len(weighted_list)]`.
`d` stands in for the out-of-range default that the Python indexing never
needs (the theorems assume a non-empty list). -/
def weighted_pick (wl : List Target) (counter : Nat) (d : Target) : Target :=
  wl.getD (counter % wl.length) d

/-- How many of the `n` consecutive single-threaded picks starting at counter
value `start` return the target `t`. -/
def weighted_pick_count (wl : List Target) (d t : Target) (start : Nat) : Nat → Nat
  | 0 => 0
  | n + 1 =>
    (if weighted_pick wl start d = t then 1 else 0) + weighted_pick_count wl d t (start + 1) n

/-- The sum of the weights of a target list. -/
def sum_weights (targets : List Target) : Nat :=
  (targets.map (fun t => t.weight)).sum

/-! ## load_balancer.py: round robin and sticky sessions -/

/-- `_round_robin` (load_balancer.py lines 73-99): pick
`targets[index % len(targets)]` and advance the counter to
`(index + 1) % len(targets)`. -/
def round_robin (targets : List Target) (counter : Nat) (d : Target) : Target × Nat :=
  (targets.getD (counter % targets.length) d, (counter + 1) % targets.length)

/-- The comparison `_sticky` uses to test whether a target is still present
(load_balancer.py lines 228-236): equality of IP and port. -/
def target_matches (a b : Target) : Bool :=
  a.ip == b.ip && a.port == b.port

/-- One target group's sticky-session storage and round-robin counter. -/
structure StickyState where
  sessions : List (PyStr × Target × Nat)
  rr_counter : Nat

/-- Dict lookup in the sticky-session table. -/
def lookup_session (sessions : List (PyStr × Target × Nat)) (client : PyStr) :
    Option (Target × Nat) :=
  match sessions.find? (fun e => e.1 == client) with
  | some e => some e.2
  | none => none

/-- Dict store `group_sessions[client] = entry`. -/
def set_session (sessions : List (PyStr × Target × Nat)) (client : PyStr)
    (entry : Target × Nat) : List (PyStr × Target × Nat) :=
  match sessions with
  | [] => [(client, entry)]
  | e :: rest =>
    if e.1 == client then (client, entry) :: rest else e :: set_session rest client entry

/-- Dict delete `del group_sessions[client]`. -/
def del_session (sessions : List (PyStr × Target × Nat)) (client : PyStr) :
    List (PyStr × Target × Nat) :=
  sessions.filter (fun e => !(e.1 == client))

/-- The tail of `_sticky` (load_balancer.py lines 244-252): pick a fresh
target by round robin, record it for the client with expiry `now + ttl`,
and return it. -/
def sticky_fresh (targets : List Target) (st : StickyState) (client : PyStr)
    (now ttl : Nat) (d : Target) : Target × StickyState :=
  let pick := round_robin targets st.rr_counter d
  (pick.1,
   { sessions := set_session st.sessions client (pick.1, now + ttl), rr_counter := pick.2 })

/-- `_sticky` (load_balancer.py lines 196-252): an unexpired session entry
whose target is still present (by IP and port) in the healthy view is
refreshed to the current instance and returned; otherwise the stale entry
is dropped and a fresh round-robin pick is recorded. -/
def sticky (targets : List Target) (st : StickyState) (client : PyStr)
    (now ttl : Nat) (d : Target) : Target × StickyState :=
  match lookup_session st.sessions client with
  | some (tgt, e) =>
    if now < e ∧ targets.any (fun t => target_matches t tgt) then
      match targets.find? (fun t => target_matches t tgt) with
      | some t =>
        (t, { sessions := set_session st.sessions client (t, e), rr_counter := st.rr_counter })
      | none => sticky_fresh targets st client now ttl d
    else
      sticky_fresh targets
        { sessions := del_session st.sessions client, rr_counter := st.rr_counter }
        client now ttl d
  | none => sticky_fresh targets st client now ttl d

/-! ## load_balancer.py: least response time (lines 144-170) -/

/-- The metric `_least_response_time` computes for a candidate
(load_balancer.py lines 153-164): `active_connections * avg`, where `avg`
is `avg_ttfb()` replaced by `0.001` when it is not positive. -/
def lrt_metric (t : Target) : ℚ :=
  (t.active_connections : ℚ) * (if avg_ttfb t ≤ 0 then 1 / 1000 else avg_ttfb t)

/-- One step of the scan in `_least_response_time` (load_balancer.py lines
166-168): the running best is replaced only when the candidate's metric is
strictly smaller. -/
def lrt_step (best cur : Target) : Target :=
  if lrt_metric cur < lrt_metric best then cur else best

/-- `_least_response_time` (load_balancer.py lines 144-170): scan the
candidates keeping the first one seen with the strictly smallest metric. -/
def least_response_time : List Target → Option Target
  | [] => none
  | t :: ts => some (ts.foldl lrt_step t)

/-- The metric named by the claim: `active_connections * max(avg_ttfb, 0.001)`. -/
def lrt_claim_metric (t : Target) : ℚ :=
  (t.active_connections : ℚ) * max (avg_ttfb t) (1 / 1000)

/-! ## load_balancer.py: client IP derivations (lines 172-194 and 309-335) -/

/-- The request fields both client-IP derivations read: the
`X-Forwarded-For` header (as delivered, `none` when absent), Flask's
`access_route` list, and `remote_addr` (`none` when unset). -/
structure ClientRequest where
  x_forwarded_for : Option PyStr
  access_route : List PyStr
  remote_addr : Option PyStr

/-- `_get_client_ip` (load_balancer.py lines 172-194), the sticky-session
client identifier: the first comma-separated entry of `X-Forwarded-For`
(stripped) when the header is present and that entry non-empty; else
`access_route[0]` when the route is non-empty; else `remote_addr or 'unknown'`. -/
def get_client_ip (r : ClientRequest) : PyStr :=
  let fallback : PyStr :=
    match r.access_route with
    | a :: _ => a
    | [] =>
      match r.remote_addr with
      | some s => if s = [] then pstr "unknown" else s
      | none => pstr "unknown"
  match r.x_forwarded_for with
  | some v =>
    if v = [] then fallback
    else
      let c := strip ((split_commas v).headD [])
      if c = [] then fallback else c
  | none => fallback

/-- The client IP computed during header synthesis (load_balancer.py line
311): `request.access_route[0] if request.access_route else request.remote_addr`. -/
def forward_client_ip (r : ClientRequest) : Option PyStr :=
  match r.access_route with
  | a :: _ => some a
  | [] => r.remote_addr

/-- The `X-Real-IP` header set during synthesis (load_balancer.py lines
330-332): the synthesis client IP when it is truthy, otherwise unset. -/
def x_real_ip (r : ClientRequest) : Option PyStr :=
  match forward_client_ip r with
  | some c => if c = [] then none else some c
  | none => none

/-- The outgoing `X-Forwarded-For` value after synthesis (load_balancer.py
lines 313-318): the existing header with `, client_ip` appended when both
are truthy; the client IP alone when only it is truthy; otherwise whatever
was copied through. -/
def synth_x_forwarded_for (r : ClientRequest) : Option PyStr :=
  match forward_client_ip r with
  | some c =>
    if c = [] then r.x_forwarded_for
    else
      match r.x_forwarded_for with
      | some e => if e = [] then some c else some (e ++ pstr ", " ++ c)
      | none => some c
  | none => r.x_forwarded_for

/-! ## Concrete instances used by witnesses and counterexamples -/

/-- First target used by the C5 witness: weight 1. -/
def c5A : Target :=
  { ip := pstr "10.0.0.1", port := 8081, base_uri := [], weight := 1,
    active_connections := 0, ttfb_samples := [] }

/-- Second target used by the C5 witness: weight 2. -/
def c5B : Target :=
  { ip := pstr "10.0.0.2", port := 8082, base_uri := [], weight := 2,
    active_connections := 0, ttfb_samples := [] }

/-- Targets used by the C6 witness. -/
def c6T1 : Target :=
  { ip := pstr "10.0.0.1", port := 8081, base_uri := [], weight := 1,
    active_connections := 0, ttfb_samples := [] }

/-- Second target used by the C6 witness. -/
def c6T2 : Target :=
  { ip := pstr "10.0.0.2", port := 8082, base_uri := [], weight := 1,
    active_connections := 0, ttfb_samples := [] }

/-- Sticky state used by the C6 witness: one session bound to `c6T1`,
expiring at time 100. -/
def c6state : StickyState :=
  { sessions := [(pstr "client", (c6T1, 100))], rr_counter := 0 }

/-- The rule used by the C7 counterexample: prefix `/a`, rewrite `/a`. -/
def c7rule : ListenerRule :=
  { path_pref := pstr "/a", path_rewrite := pstr "/a", group_name := pstr "g" }

/-- The request of the C9 counterexample: a quoted `X-Forwarded-For` value.
Werkzeug's `access_route` parses the header as an HTTP list (respecting the
quotes), so its first hop is `a,b`, while `_get_client_ip` naively splits
the raw header on commas. -/
def c9req : ClientRequest :=
  { x_forwarded_for := some (pstr "\"a,b\""), access_route := [pstr "a,b"],
    remote_addr := some (pstr "9.9.9.9") }

/-! ## Theorems -/

/-- Claim C1, as frozen, asserts that the dropped set is exactly those
headers whose lowercased name is `host`, `connection`, `keep-alive` or
`transfer-encoding`.  This is false for the code: `HOP_BY_HOP_HEADERS`
(load_balancer.py line 18) does not contain `host`, so a `Host` header
survives the filter. -/
theorem claim_C1_counterexample :
    (pstr "Host", pstr "example.com") ∈
      forward_headers [(pstr "Host", pstr "example.com")] ∧
    lower (pstr "Host") = pstr "host" := by
  constructor <;> decide

/-- Claim C1 (amended): the request headers dropped by `forward_request`
before dispatch are exactly those whose lowercased name is `connection`,
`keep-alive` or `transfer-encoding` — `host` is not dropped — and every
kept header is copied through unchanged, in order (the filtered list is a
sublist of the original). -/
theorem claim_C1_headers (hs : List (PyStr × PyStr)) (k v : PyStr) :
    ((k, v) ∈ forward_headers hs ↔
      (k, v) ∈ hs ∧
        lower k ≠ pstr "connection" ∧
        lower k ≠ pstr "keep-alive" ∧
        lower k ≠ pstr "transfer-encoding") ∧
    (forward_headers hs).Sublist hs := by
  refine ⟨?_, List.filter_sublist hs⟩
  simp only [forward_headers, List.mem_filter, decide_eq_true_eq,
    HOP_BY_HOP_HEADERS, List.mem_cons, List.not_mem_nil, or_false, not_or]

/-- Claim C3: `forward_request` maps an upstream timeout to 504 with empty
body, a connection error to 502 with empty body, any other exception to 502
with empty body, and carries any upstream reply through unmodified —
status, headers and body (load_balancer.py lines 353-390). -/
theorem claim_C3_error_translation :
    forward_result .timeout = { status := 504, headers := [], body := [] } ∧
    forward_result .connectionError = { status := 502, headers := [], body := [] } ∧
    (∀ m, forward_result (.otherError m) = { status := 502, headers := [], body := [] }) ∧
    (∀ s h b, forward_result (.reply s h b) = { status := s, headers := h, body := b }) :=
  ⟨rfl, rfl, fun _ => rfl, fun _ _ _ => rfl⟩

/-- Claim C10: `handle_error` produces the same client-visible response for
any two internal message strings — the message never reaches the client;
the response is the given status with an empty body (error_handler.py
lines 8-19). -/
theorem claim_C10_message_independence (status : Nat) (m1 m2 : PyStr) :
    handle_error status m1 = handle_error status m2 ∧
    (handle_error status m1).body = [] ∧
    (handle_error status m1).status = status :=
  ⟨rfl, rfl, rfl⟩

/-- Auxiliary for C4: a non-empty all-failure probe run long enough to reach
the failure threshold leaves the target unhealthy, from any starting record. -/
theorem fail_run_sets_unhealthy (st ft : Nat) :
    ∀ (ps : List Probe) (h : HealthInfo), ps ≠ [] →
      (∀ p ∈ ps, probe_success p = false) →
      ft ≤ h.consecutive_failures + ps.length →
      (run_health_checks st ft h ps).healthy = false := by
  intro ps
  induction ps with
  | nil => intro h hne _ _; exact absurd rfl hne
  | cons p ps ih =>
    intro h _ hall hle
    have hp : probe_success p = false := hall p (List.mem_cons_self p ps)
    have hrun : run_health_checks st ft h (p :: ps) =
        run_health_checks st ft (check_target_health st ft h p) ps := rfl
    by_cases hps : ps = []
    · subst hps
      simp only [run_health_checks, List.foldl, check_target_health, hp, if_false,
        Bool.false_eq_true]
      have : ft ≤ h.consecutive_failures + 1 := by
        simpa using hle
      simp [this]
    · rw [hrun]
      refine ih (check_target_health st ft h p) hps
        (fun q hq => hall q (List.mem_cons_of_mem p hq)) ?_
      simp only [check_target_health, hp, Bool.false_eq_true, if_false]
      simp only [List.length_cons] at hle
      omega

/-- Auxiliary for C4, symmetric: a non-empty all-success probe run long
enough to reach the succeed threshold leaves the target healthy, from any
starting record. -/
theorem succ_run_sets_healthy (st ft : Nat) :
    ∀ (ps : List Probe) (h : HealthInfo), ps ≠ [] →
      (∀ p ∈ ps, probe_success p = true) →
      st ≤ h.consecutive_successes + ps.length →
      (run_health_checks st ft h ps).healthy = true := by
  intro ps
  induction ps with
  | nil => intro h hne _ _; exact absurd rfl hne
  | cons p ps ih =>
    intro h _ hall hle
    have hp : probe_success p = true := hall p (List.mem_cons_self p ps)
    have hrun : run_health_checks st ft h (p :: ps) =
        run_health_checks st ft (check_target_health st ft h p) ps := rfl
    by_cases hps : ps = []
    · subst hps
      simp only [run_health_checks, List.foldl, check_target_health, hp, if_true]
      have : st ≤ h.consecutive_successes + 1 := by
        simpa using hle
      simp [this]
    · rw [hrun]
      refine ih (check_target_health st ft h p) hps
        (fun q hq => hall q (List.mem_cons_of_mem p hq)) ?_
      simp only [check_target_health, hp, if_true]
      simp only [List.length_cons] at hle
      omega

/-- Claim C4: from the initial record (healthy, both counters zero) — and in
fact from any record — a run of `failure_threshold` consecutive failures
(only non-200, timeout or error observations are failures) sets
`healthy = false`; any single success resets `consecutive_failures` to 0;
and symmetrically `succeed_threshold` consecutive successes set
`healthy = true` (health_check.py lines 89-148). -/
theorem claim_C4_health_hysteresis (st ft : Nat) (h : HealthInfo)
    (ps qs : List Probe) (p : Probe)
    (hft : 0 < ft) (hst : 0 < st)
    (hlen : ps.length = ft) (hfail : ∀ x ∈ ps, probe_success x = false)
    (hqlen : qs.length = st) (hsucc : ∀ x ∈ qs, probe_success x = true)
    (hp : probe_success p = true) :
    (run_health_checks st ft initialHealth ps).healthy = false ∧
    (run_health_checks st ft h ps).healthy = false ∧
    (check_target_health st ft h p).consecutive_failures = 0 ∧
    (run_health_checks st ft h qs).healthy = true ∧
    probe_success (.response 200) = true ∧
    (∀ c, c ≠ 200 → probe_success (.response c) = false) ∧
    probe_success .timeout = false ∧
    probe_success .connError = false := by
  have hpne : ps ≠ [] := by
    intro hnil; rw [hnil] at hlen; simp at hlen; omega
  have hqne : qs ≠ [] := by
    intro hnil; rw [hnil] at hqlen; simp at hqlen; omega
  refine ⟨?_, ?_, ?_, ?_, rfl, ?_, rfl, rfl⟩
  · exact fail_run_sets_unhealthy st ft ps initialHealth hpne hfail (by simp [initialHealth]; omega)
  · exact fail_run_sets_unhealthy st ft ps h hpne hfail (by omega)
  · simp [check_target_health, hp]
  · exact succ_run_sets_healthy st ft qs h hqne hsucc (by omega)
  · intro c hc
    simp [probe_success, hc]

/-- Witness for C4: with both thresholds 2, a timeout followed by a 500
response flips the initial record to unhealthy. -/
theorem claim_C4_witness :
    (run_health_checks 2 2 initialHealth [Probe.timeout, Probe.response 500]).healthy = false :=
  (claim_C4_health_hysteresis 2 2 initialHealth [Probe.timeout, Probe.response 500]
    [Probe.response 200, Probe.response 200] (Probe.response 200) (by decide) (by decide)
    (by decide) (by decide) (by decide) (by decide) (by decide)).1

/-- Auxiliary for C2: membership in an insertion. -/
theorem mem_insertRuleSorted (r a : ListenerRule) :
    ∀ l : List ListenerRule, (a ∈ insertRuleSorted r l ↔ a = r ∨ a ∈ l) := by
  intro l
  induction l with
  | nil => simp [insertRuleSorted]
  | cons x xs ih =>
    by_cases hx : x.path_pref.length ≤ r.path_pref.length
    · simp [insertRuleSorted, hx]
    · simp only [insertRuleSorted, hx, if_false, List.mem_cons, ih]
      tauto

/-- Auxiliary for C2: insertion preserves the descending-prefix-length
pairwise order. -/
theorem pairwise_insertRuleSorted (r : ListenerRule) :
    ∀ l : List ListenerRule,
      l.Pairwise (fun a b => b.path_pref.length ≤ a.path_pref.length) →
      (insertRuleSorted r l).Pairwise
        (fun a b => b.path_pref.length ≤ a.path_pref.length) := by
  intro l
  induction l with
  | nil => intro _; simp [insertRuleSorted]
  | cons x xs ih =>
    intro hp
    rw [List.pairwise_cons] at hp
    by_cases hx : x.path_pref.length ≤ r.path_pref.length
    · simp only [insertRuleSorted, hx, if_true]
      rw [List.pairwise_cons]
      refine ⟨?_, List.pairwise_cons.mpr hp⟩
      intro b hb
      rcases List.mem_cons.mp hb with hbx | hbxs
      · exact hbx ▸ hx
      · exact le_trans (hp.1 b hbxs) hx
    · simp only [insertRuleSorted, hx, if_false]
      rw [List.pairwise_cons]
      refine ⟨?_, ih hp.2⟩
      intro b hb
      rcases (mem_insertRuleSorted r b xs).mp hb with hbr | hbxs
      · exact hbr ▸ le_of_lt (Nat.lt_of_not_le hx)
      · exact hp.1 b hbxs

/-- Auxiliary for C2: the sorted rule list is pairwise descending in
prefix length. -/
theorem pairwise_sortRulesByLen :
    ∀ l : List ListenerRule,
      (sortRulesByLen l).Pairwise
        (fun a b => b.path_pref.length ≤ a.path_pref.length) := by
  intro l
  induction l with
  | nil => simp [sortRulesByLen]
  | cons x xs ih => exact pairwise_insertRuleSorted x (sortRulesByLen xs) ih

/-- Auxiliary for C2: how the first match changes when a rule is inserted
into a descending-ordered list. -/
theorem find_insertRuleSorted (path : PyStr) (r : ListenerRule) :
    ∀ l : List ListenerRule,
      l.Pairwise (fun a b => b.path_pref.length ≤ a.path_pref.length) →
      (insertRuleSorted r l).find? (fun x => startswith path x.path_pref) =
        (if startswith path r.path_pref then
          match l.find? (fun x => startswith path x.path_pref) with
          | some b => if r.path_pref.length < b.path_pref.length then some b else some r
          | none => some r
        else l.find? (fun x => startswith path x.path_pref)) := by
  intro l
  induction l with
  | nil =>
    intro _
    by_cases hpr : startswith path r.path_pref
    · simp [insertRuleSorted, List.find?, hpr]
    · simp [insertRuleSorted, List.find?, hpr]
  | cons x xs ih =>
    intro hp
    have hxs := (List.pairwise_cons.mp hp).2
    have hhead := (List.pairwise_cons.mp hp).1
    by_cases hx : x.path_pref.length ≤ r.path_pref.length
    · simp only [insertRuleSorted, hx, if_true]
      by_cases hpr : startswith path r.path_pref
      · rw [@List.find?_cons_of_pos _ (fun y => startswith path y.path_pref) r (x :: xs) hpr]
        rw [if_pos hpr]
        cases hfb : (x :: xs).find? (fun y => startswith path y.path_pref) with
        | none => rfl
        | some b =>
          have hble : b.path_pref.length ≤ r.path_pref.length := by
            rcases List.mem_cons.mp (List.mem_of_find?_eq_some hfb) with hbx | hbxs
            · exact hbx ▸ hx
            · exact le_trans (hhead b hbxs) hx
          dsimp only
          rw [if_neg (Nat.not_lt.mpr hble)]
      · rw [@List.find?_cons_of_neg _ (fun y => startswith path y.path_pref) r (x :: xs) hpr]
        rw [if_neg hpr]
    · simp only [insertRuleSorted, hx, if_false]
      have hrx : r.path_pref.length < x.path_pref.length := Nat.lt_of_not_le hx
      by_cases hpx : startswith path x.path_pref
      · rw [@List.find?_cons_of_pos _ (fun y => startswith path y.path_pref) x
          (insertRuleSorted r xs) hpx]
        rw [@List.find?_cons_of_pos _ (fun y => startswith path y.path_pref) x xs hpx]
        by_cases hpr : startswith path r.path_pref
        · rw [if_pos hpr]
          dsimp only
          rw [if_pos hrx]
        · rw [if_neg hpr]
      · rw [@List.find?_cons_of_neg _ (fun y => startswith path y.path_pref) x
          (insertRuleSorted r xs) hpx]
        rw [@List.find?_cons_of_neg _ (fun y => startswith path y.path_pref) x xs hpx]
        exact ih hxs

/-- Auxiliary for C2: the first match of the sorted rule list is the
spec-side best match. -/
theorem find_sortRulesByLen (path : PyStr) :
    ∀ l : List ListenerRule,
      (sortRulesByLen l).find? (fun x => startswith path x.path_pref) =
        bestMatchSpec path l := by
  intro l
  induction l with
  | nil => rfl
  | cons x xs ih =>
    have h := find_insertRuleSorted path x (sortRulesByLen xs) (pairwise_sortRulesByLen xs)
    rw [sortRulesByLen, h, ih]
    rfl

/-- Auxiliary for C2: the spec-side best match really is a maximal-length
match, and is absent exactly when nothing matches. -/
theorem bestMatchSpec_props (path : PyStr) :
    ∀ l : List ListenerRule,
      (∀ r, bestMatchSpec path l = some r →
        r ∈ l ∧ startswith path r.path_pref = true ∧
        ∀ x ∈ l, startswith path x.path_pref = true →
          x.path_pref.length ≤ r.path_pref.length) ∧
      (bestMatchSpec path l = none →
        ∀ x ∈ l, startswith path x.path_pref = false) := by
  intro l
  induction l with
  | nil => exact ⟨fun r h => by simp [bestMatchSpec] at h, fun _ x hx => absurd hx (by simp)⟩
  | cons x xs ih =>
    obtain ⟨ih1, ih2⟩ := ih
    by_cases hpx : startswith path x.path_pref
    · constructor
      · intro r hr
        simp only [bestMatchSpec, hpx, if_true] at hr
        cases hbx : bestMatchSpec path xs with
        | none =>
          rw [hbx] at hr
          cases hr
          refine ⟨List.mem_cons_self x xs, hpx, ?_⟩
          intro y hy hsy
          rcases List.mem_cons.mp hy with hyx | hyxs
          · exact hyx ▸ Nat.le_refl _
          · rw [ih2 hbx y hyxs] at hsy
            exact absurd hsy (by simp)
        | some b =>
          rw [hbx] at hr
          dsimp only at hr
          obtain ⟨hbmem, hbs, hbmax⟩ := ih1 b hbx
          by_cases hlt : x.path_pref.length < b.path_pref.length
          · rw [if_pos hlt] at hr
            cases hr
            refine ⟨List.mem_cons_of_mem x hbmem, hbs, ?_⟩
            intro y hy hsy
            rcases List.mem_cons.mp hy with hyx | hyxs
            · exact hyx ▸ le_of_lt hlt
            · exact hbmax y hyxs hsy
          · rw [if_neg hlt] at hr
            cases hr
            refine ⟨List.mem_cons_self x xs, hpx, ?_⟩
            intro y hy hsy
            rcases List.mem_cons.mp hy with hyx | hyxs
            · exact hyx ▸ Nat.le_refl _
            · exact le_trans (hbmax y hyxs hsy) (Nat.not_lt.mp hlt)
      · intro hnone
        simp only [bestMatchSpec, hpx, if_true] at hnone
        cases hbx : bestMatchSpec path xs with
        | none => rw [hbx] at hnone; cases hnone
        | some b =>
          rw [hbx] at hnone
          dsimp only at hnone
          by_cases hlt : x.path_pref.length < b.path_pref.length
          · rw [if_pos hlt] at hnone; cases hnone
          · rw [if_neg hlt] at hnone; cases hnone
    · have hbeq : bestMatchSpec path (x :: xs) = bestMatchSpec path xs := by
        simp [bestMatchSpec, hpx]
      constructor
      · intro r hr
        rw [hbeq] at hr
        obtain ⟨hmem, hs, hmax⟩ := ih1 r hr
        refine ⟨List.mem_cons_of_mem x hmem, hs, ?_⟩
        intro y hy hsy
        rcases List.mem_cons.mp hy with hyx | hyxs
        · rw [hyx] at hsy
          rw [hsy] at hpx
          exact absurd rfl hpx
        · exact hmax y hyxs hsy
      · intro hnone
        rw [hbeq] at hnone
        intro y hy
        rcases List.mem_cons.mp hy with hyx | hyxs
        · rw [hyx]
          exact Bool.not_eq_true _ ▸ (by simpa using hpx)
        · exact ih2 hnone y hyxs

/-- Claim C2: `find_listener_rule` returns exactly the spec-side best match
(maximal prefix length among the rules prefix-matching the URI, ties broken
by original configuration order — `bestMatchSpec` scans in original order
and only replaces its candidate for a strictly longer prefix); the returned
rule prefix-matches the URI and its prefix length is maximal; and when no
rule matches, it returns none and the proxy answers 404 with an empty body
(config.py lines 54-83 and 244-252, app.py lines 29-32). -/
theorem claim_C2_longest_prefix_match (rules : List ListenerRule) (path : PyStr)
    (forward : ListenerRule → Resp) :
    find_listener_rule rules path = bestMatchSpec path rules ∧
    (∀ r, find_listener_rule rules path = some r →
      r ∈ rules ∧ startswith path r.path_pref = true ∧
      ∀ x ∈ rules, startswith path x.path_pref = true →
        x.path_pref.length ≤ r.path_pref.length) ∧
    (find_listener_rule rules path = none →
      (∀ x ∈ rules, startswith path x.path_pref = false) ∧
      proxy_route rules path forward = { status := 404, headers := [], body := [] }) := by
  have hmain : find_listener_rule rules path = bestMatchSpec path rules :=
    find_sortRulesByLen path rules
  refine ⟨hmain, ?_, ?_⟩
  · intro r hr
    exact (bestMatchSpec_props path rules).1 r (hmain ▸ hr)
  · intro hnone
    refine ⟨(bestMatchSpec_props path rules).2 (hmain ▸ hnone), ?_⟩
    unfold proxy_route
    rw [hnone]
    rfl

/-- Auxiliary for C8: the left fold with `lrt_step` either keeps its seed
(then the seed's metric is minimal over the list) or lands on a list element
that beats the seed strictly, beats everything before it strictly, and is
no worse than everything after it. -/
theorem lrt_fold_spec :
    ∀ (l : List Target) (a : Target),
      (l.foldl lrt_step a = a ∧ ∀ t ∈ l, lrt_metric a ≤ lrt_metric t) ∨
      (∃ pre post, l = pre ++ (l.foldl lrt_step a) :: post ∧
        lrt_metric (l.foldl lrt_step a) < lrt_metric a ∧
        (∀ t ∈ pre, lrt_metric (l.foldl lrt_step a) < lrt_metric t) ∧
        (∀ t ∈ post, lrt_metric (l.foldl lrt_step a) ≤ lrt_metric t)) := by
  intro l
  induction l with
  | nil => intro a; left; exact ⟨rfl, by simp⟩
  | cons x xs ih =>
    intro a
    by_cases hlt : lrt_metric x < lrt_metric a
    · have hfold : (x :: xs).foldl lrt_step a = xs.foldl lrt_step x := by
        simp [List.foldl_cons, lrt_step, hlt]
      rcases ih x with ⟨hr, hall⟩ | ⟨pre, post, heq, hlt2, hpre, hpost⟩
      · right
        refine ⟨[], xs, ?_, ?_, ?_, ?_⟩
        · rw [hfold, hr]; simp
        · rw [hfold, hr]; exact hlt
        · intro t ht; cases ht
        · intro t ht; rw [hfold, hr]; exact hall t ht
      · right
        refine ⟨x :: pre, post, ?_, ?_, ?_, ?_⟩
        · rw [hfold]
          simp only [List.cons_append, List.cons.injEq]
          exact ⟨trivial, heq⟩
        · rw [hfold]; exact lt_trans hlt2 hlt
        · intro t ht
          rw [hfold]
          rcases List.mem_cons.mp ht with htx | htpre
          · rw [htx]; exact hlt2
          · exact hpre t htpre
        · intro t ht; rw [hfold]; exact hpost t ht
    · have hfold : (x :: xs).foldl lrt_step a = xs.foldl lrt_step a := by
        simp [List.foldl_cons, lrt_step, hlt]
      rcases ih a with ⟨hr, hall⟩ | ⟨pre, post, heq, hlt2, hpre, hpost⟩
      · left
        refine ⟨by rw [hfold]; exact hr, ?_⟩
        intro t ht
        rcases List.mem_cons.mp ht with htx | htxs
        · rw [htx]; exact le_of_not_lt hlt
        · exact hall t htxs
      · right
        refine ⟨x :: pre, post, ?_, ?_, ?_, ?_⟩
        · rw [hfold]
          simp only [List.cons_append, List.cons.injEq]
          exact ⟨trivial, heq⟩
        · rw [hfold]; exact hlt2
        · intro t ht
          rw [hfold]
          rcases List.mem_cons.mp ht with htx | htpre
          · rw [htx]; exact lt_of_lt_of_le hlt2 (le_of_not_lt hlt)
          · exact hpre t htpre
        · intro t ht; rw [hfold]; exact hpost t ht

/-- Claim C8, as frozen, asserts the selected target minimizes
`active_connections * max(avg_ttfb, 0.001)`.  This is false in the band
`0 < avg_ttfb < 0.001`: the code applies the `0.001` floor only when the
average is not positive (load_balancer.py lines 160-162).  Here the scan
picks a target with 2 connections and average TTFB `1/2500` over a target
with 1 connection and average `1/1000`, although under the claim's metric
the latter is strictly smaller. -/
theorem claim_C8_counterexample :
    least_response_time
        [{ ip := pstr "a", port := 80, base_uri := [], weight := 1,
           active_connections := 2, ttfb_samples := [1 / 2500] },
         { ip := pstr "b", port := 80, base_uri := [], weight := 1,
           active_connections := 1, ttfb_samples := [1 / 1000] }] =
      some { ip := pstr "a", port := 80, base_uri := [], weight := 1,
             active_connections := 2, ttfb_samples := [1 / 2500] } ∧
    lrt_claim_metric
        { ip := pstr "b", port := 80, base_uri := [], weight := 1,
          active_connections := 1, ttfb_samples := [1 / 1000] } <
      lrt_claim_metric
        { ip := pstr "a", port := 80, base_uri := [], weight := 1,
          active_connections := 2, ttfb_samples := [1 / 2500] } := by
  constructor
  · have hm : lrt_metric
        { ip := pstr "b", port := 80, base_uri := [], weight := 1,
          active_connections := 1, ttfb_samples := [1 / 1000] } <
      lrt_metric
        { ip := pstr "a", port := 80, base_uri := [], weight := 1,
          active_connections := 2, ttfb_samples := [1 / 2500] } → False := by
      simp [lrt_metric, avg_ttfb]
      norm_num
    simp only [least_response_time, List.foldl_cons, List.foldl_nil, lrt_step]
    rw [if_neg (by intro h; exact hm h)]
  · simp [lrt_claim_metric, avg_ttfb]
    norm_num [max_def]

/-- Claim C8 (amended): for every non-empty candidate list, the selected
target is one minimizing `active_connections * avg`, where `avg` is
`avg_ttfb` when positive and `0.001` otherwise (`avg_ttfb` is the
arithmetic mean of the recorded samples, 0 if none), and ties are broken
by iteration order: everything strictly before the selected target has a
strictly larger metric. -/
theorem claim_C8_lrt_minimal (ts : List Target) (hne : ts ≠ []) :
    ∃ t0, least_response_time ts = some t0 ∧ t0 ∈ ts ∧
      (∀ t ∈ ts, lrt_metric t0 ≤ lrt_metric t) ∧
      ∃ pre post, ts = pre ++ t0 :: post ∧
        ∀ t ∈ pre, lrt_metric t0 < lrt_metric t := by
  cases ts with
  | nil => exact absurd rfl hne
  | cons x xs =>
    rcases lrt_fold_spec xs x with ⟨hr, hall⟩ | ⟨pre, post, heq, hlt2, hpre, hpost⟩
    · refine ⟨x, ?_, List.mem_cons_self x xs, ?_, [], xs, rfl, by simp⟩
      · simp only [least_response_time, hr]
      · intro t ht
        rcases List.mem_cons.mp ht with htx | htxs
        · rw [htx]
        · exact hall t htxs
    · refine ⟨xs.foldl lrt_step x, rfl, ?_, ?_, x :: pre, post, ?_, ?_⟩
      · refine List.mem_cons_of_mem x ?_
        have h := List.mem_append_right pre (List.mem_cons_self (xs.foldl lrt_step x) post)
        rw [← heq] at h
        exact h
      · intro t ht
        rcases List.mem_cons.mp ht with htx | htxs
        · rw [htx]; exact le_of_lt hlt2
        · rw [heq] at htxs
          rcases List.mem_append.mp htxs with htpre | htrpost
          · exact le_of_lt (hpre t htpre)
          · rcases List.mem_cons.mp htrpost with htr | htpost
            · rw [htr]
            · exact hpost t htpost
      · simp only [List.cons_append, List.cons.injEq]
        exact ⟨trivial, heq⟩
      · intro t ht
        rcases List.mem_cons.mp ht with htx | htpre
        · rw [htx]; exact hlt2
        · exact hpre t htpre

/-- Witness for C8: on the counterexample's two targets the scan selects
one with minimal code metric, every earlier candidate strictly worse. -/
theorem claim_C8_witness :
    ∃ t0, least_response_time
        [{ ip := pstr "a", port := 80, base_uri := [], weight := 1,
           active_connections := 2, ttfb_samples := [1 / 2500] },
         { ip := pstr "b", port := 80, base_uri := [], weight := 1,
           active_connections := 1, ttfb_samples := [1 / 1000] }] = some t0 ∧
      t0 ∈ [{ ip := pstr "a", port := 80, base_uri := [], weight := 1,
              active_connections := 2, ttfb_samples := [1 / 2500] },
            { ip := pstr "b", port := 80, base_uri := [], weight := 1,
              active_connections := 1, ttfb_samples := [1 / 1000] }] ∧
      (∀ t ∈ [{ ip := pstr "a", port := 80, base_uri := [], weight := 1,
                active_connections := 2, ttfb_samples := [1 / 2500] },
              { ip := pstr "b", port := 80, base_uri := [], weight := 1,
                active_connections := 1, ttfb_samples := [1 / 1000] }],
        lrt_metric t0 ≤ lrt_metric t) ∧
      ∃ pre post,
        [{ ip := pstr "a", port := 80, base_uri := [], weight := 1,
           active_connections := 2, ttfb_samples := [1 / 2500] },
         { ip := pstr "b", port := 80, base_uri := [], weight := 1,
           active_connections := 1, ttfb_samples := [1 / 1000] }] = pre ++ t0 :: post ∧
        ∀ t ∈ pre, lrt_metric t0 < lrt_metric t :=
  claim_C8_lrt_minimal _ (by simp)

/-- Auxiliary for C5: pick counts over a window split at `m`. -/
theorem wpc_split (wl : List Target) (d t : Target) :
    ∀ (m s n : Nat),
      weighted_pick_count wl d t s (m + n) =
        weighted_pick_count wl d t s m + weighted_pick_count wl d t (s + m) n := by
  intro m
  induction m with
  | zero => intro s n; simp [weighted_pick_count]
  | succ m ih =>
    intro s n
    have h1 : m + 1 + n = (m + n) + 1 := by omega
    rw [h1]
    simp only [weighted_pick_count]
    rw [ih (s + 1) n]
    have h2 : s + 1 + m = s + (m + 1) := by omega
    rw [h2]
    omega

/-- Auxiliary for C5: pick counts only depend on the start counter modulo
the list length. -/
theorem wpc_mod (wl : List Target) (d t : Target) :
    ∀ (n s : Nat),
      weighted_pick_count wl d t s n =
        weighted_pick_count wl d t (s % wl.length) n := by
  intro n
  induction n with
  | zero => intro s; rfl
  | succ n ih =>
    intro s
    simp only [weighted_pick_count]
    have hpick : weighted_pick wl s d = weighted_pick wl (s % wl.length) d := by
      simp [weighted_pick, Nat.mod_mod_of_dvd _ dvd_rfl]
    rw [hpick, ih (s + 1), ih (s % wl.length + 1), Nat.mod_add_mod]

/-- Auxiliary for C5: a pick window that stays inside the list counts a
segment of the list itself. -/
theorem wpc_seg (wl : List Target) (d t : Target) :
    ∀ (j s : Nat), s + j ≤ wl.length →
      weighted_pick_count wl d t s j = ((wl.drop s).take j).count t := by
  intro j
  induction j with
  | zero => intro s _; simp [weighted_pick_count]
  | succ j ih =>
    intro s hs
    have hslt : s < wl.length := by omega
    have hdrop : wl.drop s = wl[s] :: wl.drop (s + 1) := List.drop_eq_getElem_cons hslt
    have hpick : weighted_pick wl s d = wl[s] := by
      unfold weighted_pick
      rw [Nat.mod_eq_of_lt hslt]
      exact List.getD_eq_getElem wl d hslt
    simp only [weighted_pick_count]
    rw [hpick, hdrop, List.take_succ_cons, List.count_cons, ih (s + 1) (by omega)]
    simp only [beq_iff_eq]
    omega

/-- Auxiliary for C5: any window of one full cycle counts every element of
the list exactly once. -/
theorem wpc_cycle (wl : List Target) (d t : Target) (hL : 0 < wl.length) (s : Nat) :
    weighted_pick_count wl d t s wl.length = wl.count t := by
  rw [wpc_mod wl d t wl.length s]
  have hmlt : s % wl.length < wl.length := Nat.mod_lt s hL
  set m := s % wl.length with hm
  have hsplit : wl.length = (wl.length - m) + m := by omega
  rw [hsplit, wpc_split wl d t (wl.length - m) m m]
  have h2 : m + (wl.length - m) = wl.length := by omega
  rw [h2]
  have hseg1 : weighted_pick_count wl d t m (wl.length - m) = (wl.drop m).count t := by
    rw [wpc_seg wl d t (wl.length - m) m (by omega)]
    have hlen : wl.length - m = (wl.drop m).length := (List.length_drop m wl).symm
    rw [hlen, List.take_length]
  have hseg2 : weighted_pick_count wl d t wl.length m = (wl.take m).count t := by
    rw [wpc_mod wl d t m wl.length, Nat.mod_self]
    rw [wpc_seg wl d t m 0 (by omega)]
    simp
  rw [hseg1, hseg2]
  have hcnt : (wl.take m).count t + (wl.drop m).count t = wl.count t := by
    rw [← List.count_append]
    rw [List.take_append_drop]
  omega

/-- Auxiliary for C5: `k` full cycles count every element exactly `k` times. -/
theorem wpc_cycles (wl : List Target) (d t : Target) (hL : 0 < wl.length) :
    ∀ (k s : Nat),
      weighted_pick_count wl d t s (k * wl.length) = k * wl.count t := by
  intro k
  induction k with
  | zero => intro s; simp [weighted_pick_count]
  | succ k ih =>
    intro s
    have h1 : (k + 1) * wl.length = wl.length + k * wl.length := by ring
    rw [h1, wpc_split wl d t wl.length s (k * wl.length), wpc_cycle wl d t hL s,
      ih (s + wl.length)]
    ring

/-- Auxiliary for C5: the weighted expansion of a cons. -/
theorem weighted_list_cons (x : Target) (xs : List Target) :
    get_weighted_target_list (x :: xs) =
      List.replicate x.weight x ++ get_weighted_target_list xs := by
  simp [get_weighted_target_list]

/-- Auxiliary for C5: a target absent from the group is absent from the
weighted expansion. -/
theorem count_weighted_list_not_mem (t : Target) :
    ∀ ts : List Target, t ∉ ts → (get_weighted_target_list ts).count t = 0 := by
  intro ts
  induction ts with
  | nil => intro _; rfl
  | cons x xs ih =>
    intro hnm
    rw [weighted_list_cons, List.count_append]
    have hxt : (x == t) = false := by
      simp only [beq_eq_false_iff_ne]
      intro h
      exact hnm (h ▸ List.mem_cons_self x xs)
    rw [List.count_replicate, hxt, if_neg (by simp)]
    rw [ih (fun h => hnm (List.mem_cons_of_mem x h))]

/-- Auxiliary for C5: in the weighted expansion of a duplicate-free group,
each member occurs exactly its weight many times. -/
theorem count_weighted_list (t : Target) :
    ∀ ts : List Target, ts.Nodup → t ∈ ts →
      (get_weighted_target_list ts).count t = t.weight := by
  intro ts
  induction ts with
  | nil => intro _ h; cases h
  | cons x xs ih =>
    intro hnd hmem
    rw [weighted_list_cons, List.count_append]
    rcases List.mem_cons.mp hmem with htx | htxs
    · have hnotin : t ∉ xs := by
        rw [htx]
        exact (List.nodup_cons.mp hnd).1
      rw [count_weighted_list_not_mem t xs hnotin, htx]
      simp [List.count_replicate]
    · have hxt : (x == t) = false := by
        simp only [beq_eq_false_iff_ne]
        intro h
        rw [h] at hnd
        exact (List.nodup_cons.mp hnd).1 htxs
      rw [ih (List.nodup_cons.mp hnd).2 htxs, List.count_replicate, hxt, if_neg (by simp)]
      omega

/-- Auxiliary for C5: the weighted expansion has length the sum of the
weights. -/
theorem length_weighted_list (ts : List Target) :
    (get_weighted_target_list ts).length = sum_weights ts := by
  induction ts with
  | nil => rfl
  | cons x xs ih =>
    rw [weighted_list_cons, List.length_append, List.length_replicate, ih]
    simp [sum_weights]

/-- Claim C5: under WEIGHTED with weights configured, the expansion list
contains each target of a duplicate-free group exactly `weight` times (in
original order: the expansion is the concatenation of per-target blocks in
group order, target_group.py lines 156-176), and over any `k * Σw`
consecutive single-threaded picks each target is selected exactly
`k * weight` times (load_balancer.py lines 101-142). -/
theorem claim_C5_weighted_distribution (ts : List Target) (d t : Target) (k s : Nat)
    (hnd : ts.Nodup) (ht : t ∈ ts) (hw : ∀ x ∈ ts, 1 ≤ x.weight) :
    (get_weighted_target_list ts).count t = t.weight ∧
    weighted_pick_count (get_weighted_target_list ts) d t s (k * sum_weights ts) =
      k * t.weight := by
  have hcount := count_weighted_list t ts hnd ht
  have hlen := length_weighted_list ts
  have hpos : 0 < sum_weights ts := by
    have h1 : t.weight ≤ sum_weights ts :=
      List.single_le_sum (fun x _ => Nat.zero_le x) t.weight
        (List.mem_map_of_mem (fun x => x.weight) ht)
    have h2 := hw t ht
    omega
  refine ⟨hcount, ?_⟩
  have hLpos : 0 < (get_weighted_target_list ts).length := by
    rw [hlen]; exact hpos
  have hc := wpc_cycles (get_weighted_target_list ts) d t hLpos k s
  rw [hlen] at hc
  rw [hc, hcount]

/-- Witness for C5: with weights 1 and 2 (`Σw = 3`), over `3 × Σw = 9`
consecutive picks starting at counter 5, the weight-2 target is picked
`3 × 2 = 6` times, and it occurs twice in the expansion. -/
theorem claim_C5_witness :
    (get_weighted_target_list [c5A, c5B]).count c5B = c5B.weight ∧
    weighted_pick_count (get_weighted_target_list [c5A, c5B]) c5A c5B 5
      (3 * sum_weights [c5A, c5B]) = 3 * c5B.weight :=
  claim_C5_weighted_distribution [c5A, c5B] c5A c5B 3 5 (by decide) (by decide) (by decide)

/-- Auxiliary for C6: storing a session entry makes it the one found for
that client. -/
theorem lookup_set_session (sessions : List (PyStr × Target × Nat)) (client : PyStr)
    (entry : Target × Nat) :
    lookup_session (set_session sessions client entry) client = some entry := by
  induction sessions with
  | nil => simp [set_session, lookup_session, List.find?]
  | cons e rest ih =>
    by_cases he : e.1 == client
    · simp [set_session, he, lookup_session, List.find?]
    · simp only [set_session, he, if_false, Bool.false_eq_true]
      simpa [lookup_session, List.find?, he] using ih

/-- Claim C6: with an existing session entry, every pick made before the
expiry while a target with the bound IP and port is still in the healthy
view returns that target (refreshing the stored instance, expiry kept);
an expired entry, or one whose target left the view, is dropped and a
fresh target is chosen by round robin and recorded with expiry
`now + ttl` (load_balancer.py lines 196-252). -/
theorem claim_C6_sticky (targets : List Target) (st : StickyState) (client : PyStr)
    (now ttl : Nat) (d : Target) (tgt : Target) (e : Nat)
    (hsess : lookup_session st.sessions client = some (tgt, e)) :
    (now < e → (∃ t ∈ targets, target_matches t tgt = true) →
      ∃ t, sticky targets st client now ttl d =
          (t, { sessions := set_session st.sessions client (t, e),
                rr_counter := st.rr_counter }) ∧
        t ∈ targets ∧ t.ip = tgt.ip ∧ t.port = tgt.port) ∧
    ((¬ now < e ∨ ∀ t ∈ targets, target_matches t tgt = false) →
      sticky targets st client now ttl d =
        sticky_fresh targets
          { sessions := del_session st.sessions client, rr_counter := st.rr_counter }
          client now ttl d) ∧
    (∀ st2 : StickyState,
      (sticky_fresh targets st2 client now ttl d).1 =
        (round_robin targets st2.rr_counter d).1 ∧
      lookup_session (sticky_fresh targets st2 client now ttl d).2.sessions client =
        some ((round_robin targets st2.rr_counter d).1, now + ttl)) := by
  refine ⟨?_, ?_, ?_⟩
  · intro hnow hex
    have hany : targets.any (fun t => target_matches t tgt) = true :=
      List.any_eq_true.mpr (by simpa using hex)
    have hfound : (targets.find? (fun t => target_matches t tgt)).isSome := by
      rw [List.find?_isSome]
      simpa using hex
    obtain ⟨t, hfind⟩ := Option.isSome_iff_exists.mp hfound
    have hmem : t ∈ targets := List.mem_of_find?_eq_some hfind
    have hmatch : target_matches t tgt = true := by
      have h2 := List.find?_some hfind
      simpa using h2
    have hip : t.ip = tgt.ip ∧ t.port = tgt.port := by
      have := hmatch
      simp only [target_matches, Bool.and_eq_true, beq_iff_eq] at this
      exact this
    refine ⟨t, ?_, hmem, hip.1, hip.2⟩
    unfold sticky
    rw [hsess]
    simp only [if_pos (And.intro hnow hany), hfind]
  · intro hcond
    have hnotany : ¬ (now < e ∧ targets.any (fun t => target_matches t tgt) = true) := by
      rcases hcond with hlate | hgone
      · exact fun hc => hlate hc.1
      · intro hc
        obtain ⟨t, hmem, hm⟩ := List.any_eq_true.mp hc.2
        rw [hgone t hmem] at hm
        exact Bool.false_ne_true hm
    unfold sticky
    rw [hsess]
    simp only [if_neg hnotany]
  · intro st2
    refine ⟨rfl, ?_⟩
    simpa [sticky_fresh] using
      lookup_set_session st2.sessions client ((round_robin targets st2.rr_counter d).1, now + ttl)

/-- Witness for C6: at time 50 (before the expiry 100), with the bound
target still present, the sticky pick returns the target with the bound
IP and port. -/
theorem claim_C6_witness :
    ∃ t, sticky [c6T2, c6T1] c6state (pstr "client") 50 300000 c6T2 =
        (t, { sessions := set_session c6state.sessions (pstr "client") (t, 100),
              rr_counter := c6state.rr_counter }) ∧
      t ∈ [c6T2, c6T1] ∧ t.ip = c6T1.ip ∧ t.port = c6T1.port :=
  (claim_C6_sticky [c6T2, c6T1] c6state (pstr "client") 50 300000 c6T2 c6T1 100
    (by decide)).1 (by decide) (by decide)

/-- Claim C7, as frozen, asserts `rewrite_uri` is idempotent for every URI
and rule.  This is false: with rewrite `/a`, the URI `/a/a/x` rewrites to
`/a/x`, which rewrites again to `/x`. -/
theorem claim_C7_counterexample :
    rewrite_uri c7rule (rewrite_uri c7rule (pstr "/a/a/x")) ≠
      rewrite_uri c7rule (pstr "/a/a/x") := by
  decide

/-- Claim C7 (amended): `rewrite_uri` is idempotent on every URI whose
rewritten form does not itself begin with the rule's `path_rewrite` (in
particular whenever `path_rewrite` is empty): the second application
leaves the result unchanged. -/
theorem claim_C7_rewrite_idempotent (rule : ListenerRule) (u : PyStr)
    (h : rewrite_applies rule (rewrite_uri rule u) = false) :
    rewrite_uri rule (rewrite_uri rule u) = rewrite_uri rule u := by
  nth_rewrite 1 [rewrite_uri]
  simp [h]

/-- Witness for C7: with prefix and rewrite `/api`, the URI `/api/users`
rewrites to `/users`, and a second rewrite leaves it unchanged. -/
theorem claim_C7_witness :
    rewrite_uri { path_pref := pstr "/api", path_rewrite := pstr "/api", group_name := pstr "g" }
        (rewrite_uri { path_pref := pstr "/api", path_rewrite := pstr "/api", group_name := pstr "g" }
          (pstr "/api/users")) =
      rewrite_uri { path_pref := pstr "/api", path_rewrite := pstr "/api", group_name := pstr "g" }
        (pstr "/api/users") :=
  claim_C7_rewrite_idempotent _ _ (by decide)

/-- Claim C9, as frozen, asserts the sticky-session client identifier
always equals the client IP placed in `X-Real-IP` (and appended to
`X-Forwarded-For`) during header synthesis.  This is false: the sticky
identifier is derived from the raw `X-Forwarded-For` header
(load_balancer.py lines 183-189), while synthesis reads only
`access_route`/`remote_addr` (line 311), and the two disagree whenever
the header's first raw comma-segment differs from the route's first hop. -/
theorem claim_C9_counterexample :
    get_client_ip c9req = pstr "\"a" ∧
    x_real_ip c9req = some (pstr "a,b") ∧
    get_client_ip c9req ≠ (x_real_ip c9req).getD [] := by
  refine ⟨?_, ?_, ?_⟩ <;> decide

/-- Claim C9 (amended): the sticky-session client identifier equals the
client IP placed in `X-Real-IP` and appended to `X-Forwarded-For` for
every request whose access route is non-empty with a non-empty (truthy)
first hop, provided the first comma-separated entry of any present
`X-Forwarded-For` header (trimmed), when non-empty, equals that first
hop — in particular whenever `X-Forwarded-For` is absent. -/
theorem claim_C9_client_ip_agreement (r : ClientRequest) (a : PyStr) (rest : List PyStr)
    (hroute : r.access_route = a :: rest) (ha : a ≠ [])
    (hagree : ∀ v, r.x_forwarded_for = some v → v ≠ [] →
      strip ((split_commas v).headD []) ≠ [] →
      strip ((split_commas v).headD []) = a) :
    get_client_ip r = a ∧
    x_real_ip r = some a ∧
    (∀ e, r.x_forwarded_for = some e → e ≠ [] →
      synth_x_forwarded_for r = some (e ++ pstr ", " ++ a)) ∧
    (r.x_forwarded_for = none → synth_x_forwarded_for r = some a) := by
  have hfwd : forward_client_ip r = some a := by
    unfold forward_client_ip
    rw [hroute]
  have hreal : x_real_ip r = some a := by
    unfold x_real_ip
    rw [hfwd]
    simp [ha]
  have hget : get_client_ip r = a := by
    have hagree2 : ∀ v, r.x_forwarded_for = some v → v ≠ [] →
        strip ((split_commas v).head?.getD []) ≠ [] →
        strip ((split_commas v).head?.getD []) = a := by
      simpa only [List.headD_eq_head?_getD] using hagree
    unfold get_client_ip
    rw [hroute]
    cases hx : r.x_forwarded_for with
    | none => simp
    | some v =>
      by_cases hv : v = []
      · simp [hv]
      · by_cases hc : strip ((split_commas v).head?.getD []) = []
        · simp [hv, hc]
        · simp [hv, hc]
          exact hagree2 v hx hv hc
  refine ⟨hget, hreal, ?_, ?_⟩
  · intro e hx he
    unfold synth_x_forwarded_for
    rw [hfwd, hx]
    simp [ha, he]
  · intro hx
    unfold synth_x_forwarded_for
    rw [hfwd, hx]
    simp [ha]

/-- Witness for C9: with no `X-Forwarded-For` header and access route
`["1.2.3.4"]`, both derivations yield `1.2.3.4`. -/
theorem claim_C9_witness :
    get_client_ip
        { x_forwarded_for := none, access_route := [pstr "1.2.3.4"],
          remote_addr := some (pstr "8.8.8.8") } = pstr "1.2.3.4" ∧
    x_real_ip
        { x_forwarded_for := none, access_route := [pstr "1.2.3.4"],
          remote_addr := some (pstr "8.8.8.8") } = some (pstr "1.2.3.4") ∧
    (∀ e, (none : Option PyStr) = some e → e ≠ [] →
      synth_x_forwarded_for
          { x_forwarded_for := none, access_route := [pstr "1.2.3.4"],
            remote_addr := some (pstr "8.8.8.8") } = some (e ++ pstr ", " ++ pstr "1.2.3.4")) ∧
    ((none : Option PyStr) = none →
      synth_x_forwarded_for
          { x_forwarded_for := none, access_route := [pstr "1.2.3.4"],
            remote_addr := some (pstr "8.8.8.8") } = some (pstr "1.2.3.4")) :=
  claim_C9_client_ip_agreement
    { x_forwarded_for := none, access_route := [pstr "1.2.3.4"],
      remote_addr := some (pstr "8.8.8.8") }
    (pstr "1.2.3.4") [] rfl (by decide) (fun v hv => by cases hv)

end LB
